import Mathlib

/-!
A shallow embedding of `scripts/rnnlm/make_word_features.py` together with
proofs about its loaders and its feature-extraction algorithm.

Modelling conventions:
* Python strings are `List Char` (`Word` below); slicing `w[a:b]` with
  `0 ≤ a < b ≤ len w` becomes `(w.drop a).take (b - a)`.
* Python dicts keyed by strings are association lists with
  overwrite-on-insert (`dictInsert`) and first-match lookup (`dictLookup`);
  keys stay unique because inserts overwrite.
* Python ints are `Int`, floats are `ℚ`; `math.log` (a float operation) is
  abstracted as an explicit function parameter `lg : ℚ → ℚ` of the
  extractor, so theorems about the unigram feature state the exact formula
  the code applies to the result of the log.
* The script's fatal exits (`sys.exit`, failed `assert`, and uncaught
  `IndexError` / `ValueError`) become `Except LoadError` results; each
  constructor of `LoadError` names the condition that kills the run.
* The per-word feature dict (`defaultdict(int)`) is an association list
  `FeatVec` with `setFeat` (Python `d[k] = v`), `addFeat` (`d[k] += v`,
  default 0) and reader `getFeat` (value at key, 0 when absent).
-/

abbrev Word := List Char

abbrev FeatVec := List (Int × ℚ)

/-- `d[k] = v` on a Python dict modelled as an association list. -/
def setFeat (m : FeatVec) (k : Int) (v : ℚ) : FeatVec :=
  match m with
  | [] => [(k, v)]
  | (k2, v2) :: rest => if k2 = k then (k2, v) :: rest else (k2, v2) :: setFeat rest k v

/-- `d[k] += v` on a `defaultdict(int)`: absent keys start at 0. -/
def addFeat (m : FeatVec) (k : Int) (v : ℚ) : FeatVec :=
  match m with
  | [] => [(k, v)]
  | (k2, v2) :: rest => if k2 = k then (k2, v2 + v) :: rest else (k2, v2) :: addFeat rest k v

/-- Read a feature value; 0 when the key is absent. -/
def getFeat (m : FeatVec) (k : Int) : ℚ :=
  match m with
  | [] => 0
  | (k2, v) :: rest => if k2 = k then v else getFeat rest k

/-- First-match lookup in a string-keyed Python dict. -/
def dictLookup (m : List (Word × Int)) (k : Word) : Option Int :=
  match m with
  | [] => none
  | (k2, v) :: rest => if k2 = k then some v else dictLookup rest k

/-- `d[k] = v` on a string-keyed Python dict (overwrite, keys unique). -/
def dictInsert (m : List (Word × Int)) (k : Word) (v : Int) : List (Word × Int) :=
  match m with
  | [] => [(k, v)]
  | (k2, v2) :: rest => if k2 = k then (k2, v) :: rest else (k2, v2) :: dictInsert rest k v

/-- The fatal conditions of the script (sys.exit calls, failed asserts and
uncaught exceptions), named after the spec's error taxonomy. -/
inductive LoadError where
  | MalformedRecordError
  | DuplicateWordError
  | NonContiguousIdError
  | MissingProbabilityError
  | UnrecognizedFeatureTypeError
  | ParseError
  | IndexError
deriving DecidableEq

deriving instance DecidableEq for Except

/-- Decimal digit value of a character, `none` for non-digits. -/
def digitVal? (c : Char) : Option Nat :=
  if '0' ≤ c ∧ c ≤ '9' then some (c.toNat - '0'.toNat) else none

def parseDigits? : List Char → Nat → Option Nat
  | [], acc => some acc
  | c :: rest, acc =>
    match digitVal? c with
    | some d => parseDigits? rest (acc * 10 + d)
    | none => none

def parseNat? (w : Word) : Option Nat :=
  if w = [] then none else parseDigits? w 0

/-- Model of Python `int(string)` on decimal literals. -/
def parseInt? (w : Word) : Option Int :=
  match w with
  | '-' :: rest => (parseNat? rest).map (fun n => -(n : Int))
  | '+' :: rest => (parseNat? rest).map (fun n => (n : Int))
  | _ => (parseNat? w).map (fun n => (n : Int))

def splitAtDot : List Char → List Char × Option (List Char)
  | [] => ([], none)
  | c :: rest =>
    if c = '.' then ([], some rest)
    else
      let p := splitAtDot rest
      (c :: p.1, p.2)

def parseUFloat? (w : List Char) : Option ℚ :=
  match splitAtDot w with
  | (ip, none) => (parseNat? ip).map (fun n => (n : ℚ))
  | (ip, some fp) =>
    if ip = [] ∧ fp = [] then none
    else
      match (if ip = [] then some 0 else parseDigits? ip 0),
            (if fp = [] then some 0 else parseDigits? fp 0) with
      | some a, some b => some ((a : ℚ) + (b : ℚ) / ((10 : ℚ) ^ fp.length))
      | _, _ => none

/-- Model of Python `float(string)` on decimal literals. -/
def parseFloat? (w : Word) : Option ℚ :=
  match w with
  | '-' :: rest => (parseUFloat? rest).map (fun q => -q)
  | '+' :: rest => parseUFloat? rest
  | _ => parseUFloat? w

/-- The record returned by `read_features` in the script: the five lookup
structures, the three optional scalar features, and the derived n-gram
order range (initialised to 10000 / -1 before any line is read). -/
structure Feats where
  constant : Option (Int × ℚ)
  special : List (Word × Int)
  unigram : Option (Int × ℚ × ℚ)
  length : Option Int
  wordMap : List (Word × Int)
  matchMap : List (Word × Int)
  initialMap : List (Word × Int)
  finalMap : List (Word × Int)
  min_ngram_order : Int
  max_ngram_order : Int
deriving DecidableEq

/-- `feats` before any line of the features file is processed. -/
def featsInit : Feats :=
  ⟨none, [], none, none, [], [], [], [], 10000, -1⟩

/-- The three classes the positional scan assigns to a candidate span. -/
inductive SpanKind where
  | initialK
  | finalK
  | interiorK
deriving DecidableEq

/-- The classification step of the n-gram scan for one `(pos, order)`
candidate: the guards, the boundary clamps and the substring extraction of
the loop body of `get_feature_list`, without the dict lookup.  Returns the
span's class and its (clamped) substring, or `none` when the loop body
`continue`s. -/
def spanClass (word : Word) (pos : Nat) (order : Int) : Option (SpanKind × Word) :=
  let start : Int := (pos : Int) - order + 1
  let stop : Int := (pos : Int) + 1
  if start < -1 then none
  else if start < 0 ∧ stop > (word.length : Int) then none
  else if start < 0 then
    -- clamp start to 0, classify as initial
    if (0 : Int) ≥ stop then none
    else some (.initialK, (word.drop (0 : Nat)).take (stop - 0).toNat)
  else if stop > (word.length : Int) then
    -- clamp stop to len(word), classify as final
    if start ≥ (word.length : Int) then none
    else some (.finalK, (word.drop start.toNat).take ((word.length : Int) - start).toNat)
  else
    if start ≥ stop then none
    else some (.interiorK, (word.drop start.toNat).take (stop - start).toNat)

/-- The dict (`feats['initial']` / `feats['final']` / `feats['match']`)
consulted for each span class. -/
def kindMap (feats : Feats) : SpanKind → List (Word × Int)
  | .initialK => feats.initialMap
  | .finalK => feats.finalMap
  | .interiorK => feats.matchMap

/-- The feature id (if any) the span at `(pos, order)` contributes. -/
def spanHit (feats : Feats) (word : Word) (pos : Nat) (order : Int) : Option Int :=
  match spanClass word pos order with
  | none => none
  | some (kind, s) => dictLookup (kindMap feats kind) s

/-- One iteration of the inner loop of the n-gram scan:
`ans[feat_id] += 1` when the span hits a registered n-gram. -/
def spanStep (feats : Feats) (word : Word) (ans : FeatVec) (pos : Nat) (order : Int) : FeatVec :=
  match spanHit feats word pos order with
  | some feat_id => addFeat ans feat_id 1
  | none => ans

/-- Python `range(a, b)` on ints. -/
def pythonRange (a b : Int) : List Int :=
  (List.range (b - a).toNat).map (fun i : Nat => a + (i : Int))

/-- `range(feats['min_ngram_order'], feats['max_ngram_order'] + 1)`. -/
def orderList (feats : Feats) : List Int :=
  pythonRange feats.min_ngram_order (feats.max_ngram_order + 1)

/-- The double loop `for pos in range(len(word) + 1): for order in ...`. -/
def ngramScan (feats : Feats) (word : Word) (ans : FeatVec) : FeatVec :=
  (List.range (word.length + 1)).foldl
    (fun a pos => (orderList feats).foldl (fun a2 o => spanStep feats word a2 pos o) a) ans

/-- All `(pos, order)` pairs the scan's double loop visits, in loop order. -/
def spanGrid (word : Word) (orders : List Int) : List (Nat × Int) :=
  (List.range (word.length + 1)).flatMap (fun pos => orders.map (fun o => (pos, o)))

/-- `get_feature_list(word, idx)` from the script.  `lg` abstracts
`math.log`; `unigram_probs` is the loaded probability table. -/
def get_feature_list (lg : ℚ → ℚ) (feats : Feats) (unigram_probs : List ℚ)
    (word : Word) (idx : Nat) : FeatVec :=
  if idx = 0 then [] else
  let ans0 : FeatVec := []
  let ans1 : FeatVec :=
    match feats.constant with
    | some (feat_id, value) => setFeat ans0 feat_id value
    | none => ans0
  match dictLookup feats.special word with
  | some feat_id => setFeat ans1 feat_id 1
  | none =>
    let ans2 : FeatVec :=
      match feats.unigram with
      | some (feat_id, entropy, scale) =>
        setFeat ans1 feat_id ((lg (unigram_probs.getD idx 0) + entropy) * scale / entropy)
      | none => ans1
    let ans3 : FeatVec :=
      match feats.length with
      | some feat_id => setFeat ans2 feat_id (word.length : ℚ)
      | none => ans2
    let ans4 : FeatVec :=
      match dictLookup feats.wordMap word with
      | some feat_id => setFeat ans3 feat_id 1
      | none => ans3
    ngramScan feats word ans4

/-- Sequential line parsing: first failing line aborts the load. -/
def parseLines {α : Type} (parse1 : List Word → Except LoadError α) :
    List (List Word) → Except LoadError (List α)
  | [] => .ok []
  | l :: ls =>
    match parse1 l with
    | .error e => .error e
    | .ok r =>
      match parseLines parse1 ls with
      | .error e => .error e
      | .ok rs => .ok (r :: rs)

/-- The per-line shape `read_vocab` demands: two fields, the second an int. -/
def parseVocabLine (fields : List Word) : Except LoadError (Word × Int) :=
  if fields.length ≠ 2 then .error .MalformedRecordError
  else
    match parseInt? (fields.getD 1 []) with
    | none => .error .ParseError
    | some id => .ok (fields.getD 0 [], id)

/-- The line loop of `read_vocab`: arity assert, duplicate-word exit
(before the id is parsed, as in the script), then insertion. -/
def read_vocab_go (vocab : List (Word × Int)) :
    List (List Word) → Except LoadError (List (Word × Int))
  | [] => .ok vocab
  | fields :: rest =>
    if fields.length ≠ 2 then .error .MalformedRecordError
    else if (dictLookup vocab (fields.getD 0 [])).isSome then .error .DuplicateWordError
    else
      match parseInt? (fields.getD 1 []) with
      | none => .error .ParseError
      | some id => read_vocab_go (vocab ++ [(fields.getD 0 [], id)]) rest

/-- Python `sorted` on a list of ids. -/
def sortIds (l : List Int) : List Int :=
  List.insertionSort (fun a b => a ≤ b) l

/-- The id sequence `0, 1, ..., n-1` the contiguity assert demands. -/
def idRange (n : Nat) : List Int :=
  (List.range n).map (fun i => (i : Int))

/-- `read_vocab`: the line loop followed by the
`for idx, id in enumerate(sorted_ids): assert idx == id` check. -/
def read_vocab (lines : List (List Word)) : Except LoadError (List (Word × Int)) :=
  match read_vocab_go [] lines with
  | .error e => .error e
  | .ok vocab =>
    if sortIds (vocab.map Prod.snd) = idRange vocab.length then .ok vocab
    else .error .NonContiguousIdError

/-- Python `unigram_probs[idx] = p` after the conditional `extend`, with
negative indices counting from the end as in Python (an out-of-range
negative index is a fatal IndexError). -/
def setProb (l : List (Option ℚ)) (idx : Int) (p : ℚ) : Except LoadError (List (Option ℚ)) :=
  if 0 ≤ idx then .ok (l.set idx.toNat (some p))
  else if -idx ≤ (l.length : Int) then .ok (l.set (l.length - (-idx).toNat) (some p))
  else .error .IndexError

/-- The line loop of `read_unigram_probs`: arity assert, parse the id,
extend the list with `None` up to the id, store the probability. -/
def read_unigram_probs_go (probs : List (Option ℚ)) :
    List (List Word) → Except LoadError (List (Option ℚ))
  | [] => .ok probs
  | fields :: rest =>
    if fields.length ≠ 2 then .error .MalformedRecordError
    else
      match parseInt? (fields.getD 0 []) with
      | none => .error .ParseError
      | some idx =>
        let probs1 :=
          if (probs.length : Int) ≤ idx then
            probs ++ List.replicate (idx - probs.length + 1).toNat none
          else probs
        match parseFloat? (fields.getD 1 []) with
        | none => .error .ParseError
        | some p =>
          match setProb probs1 idx p with
          | .error e => .error e
          | .ok probs2 => read_unigram_probs_go probs2 rest

/-- `read_unigram_probs`: the line loop followed by the
`for prob in unigram_probs: assert prob is not None` density check. -/
def read_unigram_probs (lines : List (List Word)) : Except LoadError (List ℚ) :=
  match read_unigram_probs_go [] lines with
  | .error e => .error e
  | .ok probs =>
    if probs.all (fun p => p.isSome) then .ok (probs.map (fun p => p.getD 0))
    else .error .MissingProbabilityError

/-- The four n-gram-like feature types of the features file. -/
inductive NgramKind where
  | wordT
  | matchT
  | initialT
  | finalT
deriving DecidableEq

/-- One parsed line of the features file. -/
inductive FeatRecord where
  | constantR : Int → ℚ → FeatRecord
  | specialR : Int → Word → FeatRecord
  | unigramR : Int → ℚ → ℚ → FeatRecord
  | lengthR : Int → FeatRecord
  | ngramR : NgramKind → Int → Word → FeatRecord
deriving DecidableEq

/-- Parsing of one features-file line: the `len(fields) in [2, 3, 4]`
assert, `int(fields[0])`, then the type dispatch.  A payload field that a
type reads but the line lacks is a fatal IndexError, exactly where the
script would raise one; an unknown type is the script's `sys.exit`. -/
def parseFeatLine (fields : List Word) : Except LoadError FeatRecord :=
  if ¬ (fields.length = 2 ∨ fields.length = 3 ∨ fields.length = 4) then
    .error .MalformedRecordError
  else
    match parseInt? (fields.getD 0 []) with
    | none => .error .ParseError
    | some feat_id =>
      let feat_type := fields.getD 1 []
      if feat_type = "constant".toList then
        match fields.get? 2 with
        | none => .error .IndexError
        | some f2 =>
          match parseFloat? f2 with
          | none => .error .ParseError
          | some value => .ok (.constantR feat_id value)
      else if feat_type = "special".toList then
        match fields.get? 2 with
        | none => .error .IndexError
        | some w => .ok (.specialR feat_id w)
      else if feat_type = "unigram".toList then
        match fields.get? 2 with
        | none => .error .IndexError
        | some f2 =>
          match parseFloat? f2 with
          | none => .error .ParseError
          | some entropy =>
            match fields.get? 3 with
            | none => .error .IndexError
            | some f3 =>
              match parseFloat? f3 with
              | none => .error .ParseError
              | some scale => .ok (.unigramR feat_id entropy scale)
      else if feat_type = "length".toList then .ok (.lengthR feat_id)
      else if feat_type = "word".toList then
        match fields.get? 2 with
        | none => .error .IndexError
        | some g => .ok (.ngramR .wordT feat_id g)
      else if feat_type = "match".toList then
        match fields.get? 2 with
        | none => .error .IndexError
        | some g => .ok (.ngramR .matchT feat_id g)
      else if feat_type = "initial".toList then
        match fields.get? 2 with
        | none => .error .IndexError
        | some g => .ok (.ngramR .initialT feat_id g)
      else if feat_type = "final".toList then
        match fields.get? 2 with
        | none => .error .IndexError
        | some g => .ok (.ngramR .finalT feat_id g)
      else .error .UnrecognizedFeatureTypeError

/-- The running min/max update of the n-gram order range. -/
def updOrder (feats : Feats) (order : Int) : Feats :=
  { feats with
    max_ngram_order := if order > feats.max_ngram_order then order else feats.max_ngram_order,
    min_ngram_order := if order < feats.min_ngram_order then order else feats.min_ngram_order }

/-- The effect of one parsed features-file line on `feats`: store the
feature, and for `match`/`initial`/`final` update the order range
(`word` entries leave it untouched). -/
def applyFeatRecord (feats : Feats) : FeatRecord → Feats
  | .constantR feat_id value => { feats with constant := some (feat_id, value) }
  | .specialR feat_id w => { feats with special := dictInsert feats.special w feat_id }
  | .unigramR feat_id entropy scale => { feats with unigram := some (feat_id, entropy, scale) }
  | .lengthR feat_id => { feats with length := some feat_id }
  | .ngramR .wordT feat_id g => { feats with wordMap := dictInsert feats.wordMap g feat_id }
  | .ngramR .matchT feat_id g =>
    updOrder { feats with matchMap := dictInsert feats.matchMap g feat_id } (g.length : Int)
  | .ngramR .initialT feat_id g =>
    updOrder { feats with initialMap := dictInsert feats.initialMap g feat_id }
      ((g.length : Int) + 1)
  | .ngramR .finalT feat_id g =>
    updOrder { feats with finalMap := dictInsert feats.finalMap g feat_id }
      ((g.length : Int) + 1)

/-- The line loop of `read_features`. -/
def read_features_go (feats : Feats) : List (List Word) → Except LoadError Feats
  | [] => .ok feats
  | l :: ls =>
    match parseFeatLine l with
    | .error e => .error e
    | .ok r => read_features_go (applyFeatRecord feats r) ls

/-- `read_features` from the script. -/
def read_features (lines : List (List Word)) : Except LoadError Feats :=
  read_features_go featsInit lines

/-- The n-gram order a features-file record feeds into the running
min/max: length for `match`, length + 1 for `initial`/`final`, nothing
for the other record types. -/
def recOrder? : FeatRecord → Option Int
  | .ngramR .matchT _ g => some (g.length : Int)
  | .ngramR .initialT _ g => some ((g.length : Int) + 1)
  | .ngramR .finalT _ g => some ((g.length : Int) + 1)
  | _ => none

theorem getFeat_setFeat_self (m : FeatVec) (k : Int) (v : ℚ) :
    getFeat (setFeat m k v) k = v := by
  induction m with
  | nil => simp [setFeat, getFeat]
  | cons hd tl ih =>
    obtain ⟨k2, v2⟩ := hd
    by_cases h : k2 = k <;> simp [setFeat, getFeat, h, ih]

theorem getFeat_setFeat_ne (m : FeatVec) (k k2 : Int) (v : ℚ) (h : k2 ≠ k) :
    getFeat (setFeat m k v) k2 = getFeat m k2 := by
  have h' : ¬ (k = k2) := fun hh => h hh.symm
  induction m with
  | nil => simp [setFeat, getFeat, h']
  | cons hd tl ih =>
    obtain ⟨k3, v3⟩ := hd
    by_cases h3 : k3 = k
    · subst h3
      simp [setFeat, getFeat, h']
    · simp [setFeat, getFeat, h3, ih]

theorem getFeat_addFeat_self (m : FeatVec) (k : Int) (v : ℚ) :
    getFeat (addFeat m k v) k = getFeat m k + v := by
  induction m with
  | nil => simp [addFeat, getFeat]
  | cons hd tl ih =>
    obtain ⟨k2, v2⟩ := hd
    by_cases h : k2 = k <;> simp [addFeat, getFeat, h, ih]

theorem getFeat_addFeat_ne (m : FeatVec) (k k2 : Int) (v : ℚ) (h : k2 ≠ k) :
    getFeat (addFeat m k v) k2 = getFeat m k2 := by
  have h' : ¬ (k = k2) := fun hh => h hh.symm
  induction m with
  | nil => simp [addFeat, getFeat, h']
  | cons hd tl ih =>
    obtain ⟨k3, v3⟩ := hd
    by_cases h3 : k3 = k
    · subst h3
      simp [addFeat, getFeat, h']
    · simp [addFeat, getFeat, h3, ih]

theorem dictLookup_isSome (m : List (Word × Int)) (k : Word) :
    (dictLookup m k).isSome ↔ k ∈ m.map Prod.fst := by
  induction m with
  | nil => simp [dictLookup]
  | cons hd tl ih =>
    obtain ⟨k2, v2⟩ := hd
    by_cases h : k2 = k
    · subst h
      simp [dictLookup]
    · have h' : ¬ (k = k2) := fun hh => h hh.symm
      simp [dictLookup, h, ih, h']

theorem getFeat_foldl_orders (feats : Feats) (w : Word) (pos : Nat) (fid : Int) :
    ∀ (os : List Int) (ans : FeatVec),
      getFeat (os.foldl (fun a o => spanStep feats w a pos o) ans) fid =
        getFeat ans fid +
          (os.countP (fun o => decide (spanHit feats w pos o = some fid)) : ℚ) := by
  intro os
  induction os with
  | nil => intro ans; simp
  | cons o os ih =>
    intro ans
    rw [List.foldl_cons, ih, List.countP_cons]
    unfold spanStep
    cases h : spanHit feats w pos o with
    | none => simp [h]
    | some k =>
      by_cases hk : k = fid
      · subst hk
        simp only [h, decide_eq_true_eq, if_pos rfl, getFeat_addFeat_self]
        push_cast
        ring
      · simp [h, hk, getFeat_addFeat_ne _ _ _ _ (Ne.symm hk)]

theorem getFeat_ngramScan (feats : Feats) (w : Word) (ans : FeatVec) (fid : Int) :
    getFeat (ngramScan feats w ans) fid =
      getFeat ans fid +
        ((spanGrid w (orderList feats)).countP
          (fun pq => decide (spanHit feats w pq.1 pq.2 = some fid)) : ℚ) := by
  have main : ∀ (ps : List Nat) (a : FeatVec),
      getFeat (ps.foldl
          (fun a pos => (orderList feats).foldl (fun a2 o => spanStep feats w a2 pos o) a) a) fid =
        getFeat a fid +
          ((ps.flatMap (fun pos => (orderList feats).map (fun o => (pos, o)))).countP
            (fun pq => decide (spanHit feats w pq.1 pq.2 = some fid)) : ℚ) := by
    intro ps
    induction ps with
    | nil => intro a; simp
    | cons p ps ih =>
      intro a
      rw [List.foldl_cons, ih, getFeat_foldl_orders, List.flatMap_cons, List.countP_append,
        List.countP_map]
      have hc : ((fun pq : Nat × Int => decide (spanHit feats w pq.1 pq.2 = some fid)) ∘
          fun o => (p, o)) = (fun o => decide (spanHit feats w p o = some fid)) := rfl
      rw [hc]
      push_cast
      ring
  exact main _ _

/-- C3: for every word whose id is 0, `get_feature_list` returns the empty
feature vector, whatever the dictionary, the probability table and the log
function are -- no feature rule applies to the reserved id 0. -/
theorem c3_id_zero_empty (lg : ℚ → ℚ) (feats : Feats) (probs : List ℚ) (word : Word) :
    get_feature_list lg feats probs word 0 = [] := by
  simp [get_feature_list]

/-- C5: a candidate span with `start < 0` and `end > len(word)` (the whole
word with boundary padding on both sides) is skipped by the n-gram scan's
loop body -- it contributes nothing to the vector, so a string registered
both as a whole-word feature and as a boundary-spanning n-gram is counted
for that span only through the `word` feature. -/
theorem c5_whole_word_span_skipped (feats : Feats) (word : Word) (ans : FeatVec)
    (pos : Nat) (order : Int)
    (hstart : (pos : Int) - order + 1 < 0)
    (hstop : (pos : Int) + 1 > (word.length : Int)) :
    spanStep feats word ans pos order = ans := by
  unfold spanStep spanHit spanClass
  by_cases h1 : (pos : Int) - order + 1 < -1
  · simp [h1]
  · simp [h1, hstart, hstop]

/-- C5 witness: word "ab", pos 2, order 4 gives start = -1 < 0 and
end = 3 > 2; the step leaves the vector unchanged. -/
theorem c5_whole_word_span_skipped_witness :
    spanStep featsInit ("ab".toList) [((5 : Int), (3 : ℚ))] 2 4 = [((5 : Int), (3 : ℚ))] :=
  c5_whole_word_span_skipped featsInit ("ab".toList) [((5 : Int), (3 : ℚ))] 2 4
    (by decide) (by decide)

/-- Dictionary of the C1 counterexample: a constant feature (id 1, value 1)
and the special word "a" (id 2). -/
def c1Feats : Feats :=
  ⟨some (1, 1), [("a".toList, 2)], none, none, [], [], [], [], 10000, -1⟩

/-- C1 counterexample: with a constant feature configured, the special word
"a" (id 1) receives TWO features -- the constant one and its special one --
because the constant is seeded before the special short-circuit.  The
claimed "exactly one feature" is false. -/
theorem c1_counterexample :
    get_feature_list (fun q => q) c1Feats [] ("a".toList) 1 = [(1, 1), (2, 1)] ∧
      (get_feature_list (fun q => q) c1Feats [] ("a".toList) 1).length = 2 := by
  constructor <;> decide

/-- C1 amended: a special word's vector holds its special feature (value 1)
plus exactly the constant feature when one is configured (the constant is
set before the special short-circuit returns); no unigram, length, word or
n-gram feature is ever added for it. -/
theorem c1_amended_special_vector (lg : ℚ → ℚ) (feats : Feats) (probs : List ℚ)
    (word : Word) (idx : Nat) (fid : Int)
    (hidx : idx ≠ 0) (hsp : dictLookup feats.special word = some fid) :
    (feats.constant = none → get_feature_list lg feats probs word idx = [(fid, 1)]) ∧
    (∀ cid cv, feats.constant = some (cid, cv) → cid ≠ fid →
      get_feature_list lg feats probs word idx = [(cid, cv), (fid, 1)]) ∧
    (∀ cv, feats.constant = some (fid, cv) →
      get_feature_list lg feats probs word idx = [(fid, 1)]) := by
  refine ⟨?_, ?_, ?_⟩
  · intro hc
    simp [get_feature_list, hidx, hc, hsp, setFeat]
  · intro cid cv hc hne
    simp [get_feature_list, hidx, hc, hsp, setFeat, hne]
  · intro cv hc
    simp [get_feature_list, hidx, hc, hsp, setFeat]

/-- Dictionary of the C1 witness: only the special word "b" (id 7). -/
def c1FeatsB : Feats :=
  ⟨none, [("b".toList, 7)], none, none, [], [], [], [], 10000, -1⟩

/-- C1 witness: with no constant feature, the special word "b" gets the
one-element vector `[(7, 1)]`. -/
theorem c1_amended_special_vector_witness :
    get_feature_list (fun q => q) c1FeatsB [] ("b".toList) 3 = [(7, 1)] :=
  (c1_amended_special_vector (fun q => q) c1FeatsB [] ("b".toList) 3 7
    (by decide) (by decide)).1 (by decide)

/-- C9: with a unigram feature `(fid, entropy, scale)` configured, a
non-special word with nonzero id whose unigram feature id is not also used
by the later length / word / n-gram steps gets exactly the value
`(log p + entropy) * scale / entropy`, where `p` is the word's entry in
the unigram probability table. -/
theorem c9_unigram_value (lg : ℚ → ℚ) (feats : Feats) (probs : List ℚ) (word : Word)
    (idx : Nat) (fid : Int) (entropy scale : ℚ)
    (hidx : idx ≠ 0)
    (hsp : dictLookup feats.special word = none)
    (hu : feats.unigram = some (fid, entropy, scale))
    (hlen : ∀ l, feats.length = some l → l ≠ fid)
    (hw : ∀ k, dictLookup feats.wordMap word = some k → k ≠ fid)
    (hscan : (spanGrid word (orderList feats)).countP
        (fun pq => decide (spanHit feats word pq.1 pq.2 = some fid)) = 0) :
    getFeat (get_feature_list lg feats probs word idx) fid =
      (lg (probs.getD idx 0) + entropy) * scale / entropy := by
  have hstep : ∀ m : FeatVec, getFeat (ngramScan feats word m) fid = getFeat m fid := by
    intro m
    rw [getFeat_ngramScan, hscan]
    simp
  cases hl : feats.length with
  | none =>
    cases hwl : dictLookup feats.wordMap word with
    | none =>
      simp only [get_feature_list, if_neg hidx, hsp, hu, hl, hwl]
      rw [hstep, getFeat_setFeat_self]
    | some k =>
      simp only [get_feature_list, if_neg hidx, hsp, hu, hl, hwl]
      rw [hstep, getFeat_setFeat_ne _ _ _ _ (Ne.symm (hw k hwl)), getFeat_setFeat_self]
  | some l =>
    cases hwl : dictLookup feats.wordMap word with
    | none =>
      simp only [get_feature_list, if_neg hidx, hsp, hu, hl, hwl]
      rw [hstep, getFeat_setFeat_ne _ _ _ _ (Ne.symm (hlen l hl)), getFeat_setFeat_self]
    | some k =>
      simp only [get_feature_list, if_neg hidx, hsp, hu, hl, hwl]
      rw [hstep, getFeat_setFeat_ne _ _ _ _ (Ne.symm (hw k hwl)),
        getFeat_setFeat_ne _ _ _ _ (Ne.symm (hlen l hl)), getFeat_setFeat_self]

/-- Dictionary of the C9 witness: one unigram feature (id 3, entropy 2,
scale 5) and nothing else. -/
def c9Feats : Feats :=
  ⟨none, [], some (3, 2, 5), none, [], [], [], [], 10000, -1⟩

/-- C9 witness: with the log function frozen to the constant 7, the word
"b" with id 1 gets unigram value `(7 + 2) * 5 / 2 = 45/2`. -/
theorem c9_unigram_value_witness :
    getFeat (get_feature_list (fun q => q + 7) c9Feats [1/2, 1/2] ("b".toList) 1) 3 =
      (1 / 2 + 7 + 2) * 5 / 2 := by
  have h := c9_unigram_value (fun q => q + 7) c9Feats [1/2, 1/2] ("b".toList) 1 3 2 5
    (by decide) (by decide) (by decide)
    (by intro l hl; simp [c9Feats] at hl)
    (by intro k hk; simp [c9Feats, dictLookup] at hk)
    (by decide)
  rw [h]
  norm_num

/-- A dictionary holding a single interior (`match`) n-gram feature and
nothing else, with the given order range. -/
def matchOnlyFeats (g : Word) (fid : Int) (mn mx : Int) : Feats :=
  ⟨none, [], none, none, [], [(g, fid)], [], [], mn, mx⟩

theorem spanHit_matchOnly (g : Word) (fid : Int) (mn mx : Int) (w : Word)
    (pos : Nat) (o : Int) :
    (decide (spanHit (matchOnlyFeats g fid mn mx) w pos o = some fid)) =
      (decide (spanClass w pos o = some (.interiorK, g))) := by
  unfold spanHit
  cases h : spanClass w pos o with
  | none => simp
  | some ks =>
    obtain ⟨kind, s⟩ := ks
    cases kind with
    | initialK => simp [kindMap, matchOnlyFeats, dictLookup]
    | finalK => simp [kindMap, matchOnlyFeats, dictLookup]
    | interiorK =>
      by_cases hs : g = s
      · subst hs
        simp [kindMap, matchOnlyFeats, dictLookup]
      · have hs' : ¬ (s = g) := fun hh => hs hh.symm
        simp [kindMap, matchOnlyFeats, dictLookup, hs, hs']

/-- C6: a `match` n-gram that is hit at exactly two interior spans of a
non-special word with nonzero id accumulates to the value 2 -- repeated
matches sum rather than overwrite. -/
theorem c6_match_accumulates (lg : ℚ → ℚ) (probs : List ℚ) (w g : Word) (fid : Int)
    (mn mx : Int) (idx : Nat) (hidx : idx ≠ 0)
    (hocc : (spanGrid w (orderList (matchOnlyFeats g fid mn mx))).countP
        (fun pq => decide (spanClass w pq.1 pq.2 = some (.interiorK, g))) = 2) :
    getFeat (get_feature_list lg (matchOnlyFeats g fid mn mx) probs w idx) fid = 2 := by
  have hcnt : (spanGrid w (orderList (matchOnlyFeats g fid mn mx))).countP
      (fun pq => decide (spanHit (matchOnlyFeats g fid mn mx) w pq.1 pq.2 = some fid)) = 2 := by
    rw [← hocc]
    apply List.countP_congr
    intro pq _
    rw [spanHit_matchOnly g fid mn mx w pq.1 pq.2]
  have hc : (matchOnlyFeats g fid mn mx).constant = none := rfl
  have hsp : dictLookup (matchOnlyFeats g fid mn mx).special w = none := rfl
  have hu : (matchOnlyFeats g fid mn mx).unigram = none := rfl
  have hl : (matchOnlyFeats g fid mn mx).length = none := rfl
  have hwl : dictLookup (matchOnlyFeats g fid mn mx).wordMap w = none := rfl
  simp only [get_feature_list, if_neg hidx, hc, hsp, hu, hl, hwl]
  rw [getFeat_ngramScan, hcnt]
  simp [getFeat]

/-- C6 witness: in "abab" the match n-gram "ab" (feature id 9, order range
[2,2]) occurs at two interior spans; its accumulated value is 2. -/
theorem c6_match_accumulates_witness :
    getFeat (get_feature_list (fun q => q) (matchOnlyFeats ("ab".toList) 9 2 2) []
      ("abab".toList) 1) 9 = 2 :=
  c6_match_accumulates (fun q => q) [] ("abab".toList) ("ab".toList) 9 2 2 1
    (by decide) (by decide)

theorem spanClass_initial_char (w : Word) (pos : Nat) (o : Int) (g : Word)
    (h : spanClass w pos o = some (.initialK, g)) :
    o = (pos : Int) + 2 ∧ g = w.take (pos + 1) ∧ pos + 1 ≤ w.length := by
  simp only [spanClass] at h
  by_cases h1 : (pos : Int) - o + 1 < -1
  · rw [if_pos h1] at h
    simp at h
  rw [if_neg h1] at h
  by_cases h2 : ((pos : Int) - o + 1 < 0 ∧ (pos : Int) + 1 > (w.length : Int))
  · rw [if_pos h2] at h
    simp at h
  rw [if_neg h2] at h
  by_cases h3 : (pos : Int) - o + 1 < 0
  · rw [if_pos h3] at h
    by_cases h4 : (0 : Int) ≥ (pos : Int) + 1
    · rw [if_pos h4] at h
      simp at h
    · rw [if_neg h4] at h
      rw [Option.some.injEq, Prod.mk.injEq] at h
      obtain ⟨-, hg⟩ := h
      have ht : ((pos : Int) + 1 - 0).toNat = pos + 1 := by omega
      refine ⟨by omega, ?_, by omega⟩
      rw [← hg, List.drop_zero, ht]
  · rw [if_neg h3] at h
    by_cases h5 : (pos : Int) + 1 > (w.length : Int)
    · rw [if_pos h5] at h
      by_cases h6 : (pos : Int) - o + 1 ≥ (w.length : Int)
      · rw [if_pos h6] at h
        simp at h
      · rw [if_neg h6] at h
        simp at h
    · rw [if_neg h5] at h
      by_cases h7 : (pos : Int) - o + 1 ≥ (pos : Int) + 1
      · rw [if_pos h7] at h
        simp at h
      · rw [if_neg h7] at h
        simp at h

theorem spanClass_final_char (w : Word) (pos : Nat) (o : Int) (g : Word)
    (h : spanClass w pos o = some (.finalK, g)) :
    (w.length : Int) < (pos : Int) + 1 ∧ 0 ≤ (pos : Int) - o + 1 ∧
      (pos : Int) - o + 1 < (w.length : Int) ∧
      g = w.drop ((pos : Int) - o + 1).toNat := by
  simp only [spanClass] at h
  by_cases h1 : (pos : Int) - o + 1 < -1
  · rw [if_pos h1] at h
    simp at h
  rw [if_neg h1] at h
  by_cases h2 : ((pos : Int) - o + 1 < 0 ∧ (pos : Int) + 1 > (w.length : Int))
  · rw [if_pos h2] at h
    simp at h
  rw [if_neg h2] at h
  by_cases h3 : (pos : Int) - o + 1 < 0
  · rw [if_pos h3] at h
    by_cases h4 : (0 : Int) ≥ (pos : Int) + 1
    · rw [if_pos h4] at h
      simp at h
    · rw [if_neg h4] at h
      simp at h
  · rw [if_neg h3] at h
    by_cases h5 : (pos : Int) + 1 > (w.length : Int)
    · rw [if_pos h5] at h
      by_cases h6 : (pos : Int) - o + 1 ≥ (w.length : Int)
      · rw [if_pos h6] at h
        simp at h
      · rw [if_neg h6] at h
        rw [Option.some.injEq, Prod.mk.injEq] at h
        obtain ⟨-, hg⟩ := h
        refine ⟨h5, by omega, by omega, ?_⟩
        have hlen : ((w.length : Int) - ((pos : Int) - o + 1)).toNat =
            (w.drop ((pos : Int) - o + 1).toNat).length := by
          rw [List.length_drop]
          omega
        rw [← hg, hlen, List.take_length]
    · rw [if_neg h5] at h
      by_cases h7 : (pos : Int) - o + 1 ≥ (pos : Int) + 1
      · rw [if_pos h7] at h
        simp at h
      · rw [if_neg h7] at h
        simp at h

theorem countP_le_countEq {α : Type} [DecidableEq α] (L : List α) (p : α → Bool) (a : α)
    (h : ∀ x ∈ L, p x = true → x = a) :
    L.countP p ≤ L.countP (fun x => decide (x = a)) := by
  induction L with
  | nil => simp
  | cons x L ih =>
    have hL : ∀ y ∈ L, p y = true → y = a := fun y hy => h y (List.mem_cons_of_mem x hy)
    have ihL := ih hL
    rw [List.countP_cons, List.countP_cons]
    by_cases hpx : p x = true
    · have hxa : x = a := h x (List.mem_cons_self x L) hpx
      rw [if_pos hpx, if_pos (by simp [hxa])]
      omega
    · rw [if_neg hpx]
      split <;> omega

theorem countEq_pair_map (O : List Int) (x a : Nat) (b : Int) :
    (O.map (fun o => (x, o))).countP (fun pq => decide (pq = (a, b))) =
      if x = a then O.countP (fun o => decide (o = b)) else 0 := by
  induction O with
  | nil => simp
  | cons o O ih =>
    simp only [List.map_cons, List.countP_cons, ih]
    by_cases hx : x = a
    · subst hx
      simp [Prod.ext_iff]
    · simp [Prod.ext_iff, hx]

theorem countEq_spanGrid (w : Word) (O : List Int) (a : Nat) (b : Int) :
    (spanGrid w O).countP (fun pq => decide (pq = (a, b))) =
      ((List.range (w.length + 1)).countP (fun p => decide (p = a))) *
        (O.countP (fun o => decide (o = b))) := by
  unfold spanGrid
  generalize List.range (w.length + 1) = P
  induction P with
  | nil => simp
  | cons x P ih =>
    rw [List.flatMap_cons, List.countP_append, ih, List.countP_cons, countEq_pair_map]
    by_cases hx : x = a
    · rw [if_pos hx, if_pos (by simp [hx])]
      ring
    · rw [if_neg hx, if_neg (by simp [hx])]
      ring

theorem countP_eq_le_one {α : Type} [DecidableEq α] (L : List α) (hL : L.Nodup) (a : α) :
    L.countP (fun x => decide (x = a)) ≤ 1 := by
  induction L with
  | nil => simp
  | cons x L ih =>
    rcases List.nodup_cons.mp hL with ⟨hx, hL2⟩
    rw [List.countP_cons]
    by_cases hxa : x = a
    · subst hxa
      have hz : L.countP (fun y => decide (y = x)) = 0 := by
        rw [List.countP_eq_zero]
        intro y hy
        simp only [decide_eq_true_eq]
        intro hyx
        exact hx (hyx ▸ hy)
      rw [hz]
      simp
    · rw [if_neg (by simp [hxa])]
      simpa using ih hL2

theorem pythonRange_nodup (a b : Int) : (pythonRange a b).Nodup := by
  unfold pythonRange
  refine List.Nodup.map ?_ (List.nodup_range _)
  intro i j hij
  simp only at hij
  omega

theorem spanGrid_fst_lt (w : Word) (O : List Int) (pq : Nat × Int)
    (h : pq ∈ spanGrid w O) : pq.1 < w.length + 1 := by
  unfold spanGrid at h
  rcases List.mem_flatMap.mp h with ⟨pos, hpos, hmem⟩
  rcases List.mem_map.mp hmem with ⟨o, -, rfl⟩
  simpa using List.mem_range.mp hpos

/-- A dictionary holding a single `initial` n-gram feature and nothing
else, with the given order range. -/
def initialOnlyFeats (g : Word) (fid : Int) (mn mx : Int) : Feats :=
  ⟨none, [], none, none, [], [], [(g, fid)], [], mn, mx⟩

/-- A dictionary holding a single `final` n-gram feature and nothing else,
with the given order range. -/
def finalOnlyFeats (g : Word) (fid : Int) (mn mx : Int) : Feats :=
  ⟨none, [], none, none, [], [], [], [(g, fid)], mn, mx⟩

theorem spanHit_initialOnly (g : Word) (fid : Int) (mn mx : Int) (w : Word)
    (pos : Nat) (o : Int) :
    (decide (spanHit (initialOnlyFeats g fid mn mx) w pos o = some fid)) =
      (decide (spanClass w pos o = some (.initialK, g))) := by
  unfold spanHit
  cases h : spanClass w pos o with
  | none => simp
  | some ks =>
    obtain ⟨kind, s⟩ := ks
    cases kind with
    | interiorK => simp [kindMap, initialOnlyFeats, dictLookup]
    | finalK => simp [kindMap, initialOnlyFeats, dictLookup]
    | initialK =>
      by_cases hs : g = s
      · subst hs
        simp [kindMap, initialOnlyFeats, dictLookup]
      · have hs' : ¬ (s = g) := fun hh => hs hh.symm
        simp [kindMap, initialOnlyFeats, dictLookup, hs, hs']

theorem spanHit_finalOnly (g : Word) (fid : Int) (mn mx : Int) (w : Word)
    (pos : Nat) (o : Int) :
    (decide (spanHit (finalOnlyFeats g fid mn mx) w pos o = some fid)) =
      (decide (spanClass w pos o = some (.finalK, g))) := by
  unfold spanHit
  cases h : spanClass w pos o with
  | none => simp
  | some ks =>
    obtain ⟨kind, s⟩ := ks
    cases kind with
    | interiorK => simp [kindMap, finalOnlyFeats, dictLookup]
    | initialK => simp [kindMap, finalOnlyFeats, dictLookup]
    | finalK =>
      by_cases hs : g = s
      · subst hs
        simp [kindMap, finalOnlyFeats, dictLookup]
      · have hs' : ¬ (s = g) := fun hh => hs hh.symm
        simp [kindMap, finalOnlyFeats, dictLookup, hs, hs']

/-- C10: for every word and n-gram `g` the scan classifies at most one span
of the whole (pos, order) grid as the initial match of `g` and at most one
as its final match; an initial-classified span is always the prefix of
length `order - 1` (possible only when `order - 1 ≤ len(word)`), a
final-classified span (at a scan position `pos ≤ len(word)`) the suffix of
length `order - 1`; consequently a single `initial` or `final` dictionary
entry accumulates to at most 1 in the extracted vector. -/
theorem c10_initial_final_at_most_once (w g : Word) (mn mx : Int) :
    ((spanGrid w (pythonRange mn (mx + 1))).countP
        (fun pq => decide (spanClass w pq.1 pq.2 = some (.initialK, g))) ≤ 1) ∧
    ((spanGrid w (pythonRange mn (mx + 1))).countP
        (fun pq => decide (spanClass w pq.1 pq.2 = some (.finalK, g))) ≤ 1) ∧
    (∀ pos o s, spanClass w pos o = some (.initialK, s) →
      (pos : Int) = o - 2 ∧ s = w.take ((o - 1).toNat) ∧ o - 1 ≤ (w.length : Int)) ∧
    (∀ pos o s, pos ≤ w.length → spanClass w pos o = some (.finalK, s) →
      pos = w.length ∧ o = (s.length : Int) + 1 ∧ s = w.drop (w.length - s.length)) ∧
    (∀ (lg : ℚ → ℚ) (probs : List ℚ) (idx : Nat) (fid : Int), idx ≠ 0 →
      getFeat (get_feature_list lg (initialOnlyFeats g fid mn mx) probs w idx) fid ≤ 1) ∧
    (∀ (lg : ℚ → ℚ) (probs : List ℚ) (idx : Nat) (fid : Int), idx ≠ 0 →
      getFeat (get_feature_list lg (finalOnlyFeats g fid mn mx) probs w idx) fid ≤ 1) := by
  have hcnt1 : (spanGrid w (pythonRange mn (mx + 1))).countP
      (fun pq => decide (spanClass w pq.1 pq.2 = some (.initialK, g))) ≤ 1 := by
    refine le_trans (countP_le_countEq _ _ (g.length - 1, (g.length : Int) + 1) ?_) ?_
    · rintro ⟨pos, o⟩ - hp
      simp only [decide_eq_true_eq] at hp
      obtain ⟨ho, hg, hlen⟩ := spanClass_initial_char w pos o g hp
      have hgl : g.length = pos + 1 := by
        rw [hg, List.length_take]
        omega
      rw [Prod.mk.injEq]
      exact ⟨by omega, by omega⟩
    · rw [countEq_spanGrid]
      have hmul := Nat.mul_le_mul
        (countP_eq_le_one (List.range (w.length + 1)) (List.nodup_range _) (g.length - 1))
        (countP_eq_le_one (pythonRange mn (mx + 1)) (pythonRange_nodup mn (mx + 1))
          ((g.length : Int) + 1))
      simpa using hmul
  have hcnt2 : (spanGrid w (pythonRange mn (mx + 1))).countP
      (fun pq => decide (spanClass w pq.1 pq.2 = some (.finalK, g))) ≤ 1 := by
    refine le_trans (countP_le_countEq _ _ (w.length, (g.length : Int) + 1) ?_) ?_
    · rintro ⟨pos, o⟩ hmem hp
      simp only [decide_eq_true_eq] at hp
      obtain ⟨hl5, hst0, hstl, hg⟩ := spanClass_final_char w pos o g hp
      have hpos := spanGrid_fst_lt w _ _ hmem
      simp only at hpos
      have hgl : g.length = w.length - ((pos : Int) - o + 1).toNat := by
        rw [hg, List.length_drop]
      rw [Prod.mk.injEq]
      exact ⟨by omega, by omega⟩
    · rw [countEq_spanGrid]
      have hmul := Nat.mul_le_mul
        (countP_eq_le_one (List.range (w.length + 1)) (List.nodup_range _) w.length)
        (countP_eq_le_one (pythonRange mn (mx + 1)) (pythonRange_nodup mn (mx + 1))
          ((g.length : Int) + 1))
      simpa using hmul
  have hchar3 : ∀ pos o s, spanClass w pos o = some (.initialK, s) →
      (pos : Int) = o - 2 ∧ s = w.take ((o - 1).toNat) ∧ o - 1 ≤ (w.length : Int) := by
    intro pos o s hp
    obtain ⟨ho, hs, hlen⟩ := spanClass_initial_char w pos o s hp
    refine ⟨by omega, ?_, by omega⟩
    rw [hs]
    congr 1
    omega
  have hchar4 : ∀ pos o s, pos ≤ w.length → spanClass w pos o = some (.finalK, s) →
      pos = w.length ∧ o = (s.length : Int) + 1 ∧ s = w.drop (w.length - s.length) := by
    intro pos o s hpos hp
    obtain ⟨hl5, hst0, hstl, hs⟩ := spanClass_final_char w pos o s hp
    have hsl : s.length = w.length - ((pos : Int) - o + 1).toNat := by
      rw [hs, List.length_drop]
    refine ⟨by omega, by omega, ?_⟩
    rw [hsl, hs]
    congr 1
    omega
  refine ⟨hcnt1, hcnt2, hchar3, hchar4, ?_, ?_⟩
  · intro lg probs idx fid hidx
    have hc : (initialOnlyFeats g fid mn mx).constant = none := rfl
    have hsp : dictLookup (initialOnlyFeats g fid mn mx).special w = none := rfl
    have hu : (initialOnlyFeats g fid mn mx).unigram = none := rfl
    have hl : (initialOnlyFeats g fid mn mx).length = none := rfl
    have hwl : dictLookup (initialOnlyFeats g fid mn mx).wordMap w = none := rfl
    simp only [get_feature_list, if_neg hidx, hc, hsp, hu, hl, hwl]
    rw [getFeat_ngramScan]
    have hEq : (spanGrid w (orderList (initialOnlyFeats g fid mn mx))).countP
        (fun pq => decide (spanHit (initialOnlyFeats g fid mn mx) w pq.1 pq.2 = some fid)) =
        (spanGrid w (pythonRange mn (mx + 1))).countP
          (fun pq => decide (spanClass w pq.1 pq.2 = some (.initialK, g))) := by
      apply List.countP_congr
      intro pq _
      rw [spanHit_initialOnly g fid mn mx w pq.1 pq.2]
    rw [hEq]
    simp only [getFeat]
    rw [zero_add]
    exact_mod_cast hcnt1
  · intro lg probs idx fid hidx
    have hc : (finalOnlyFeats g fid mn mx).constant = none := rfl
    have hsp : dictLookup (finalOnlyFeats g fid mn mx).special w = none := rfl
    have hu : (finalOnlyFeats g fid mn mx).unigram = none := rfl
    have hl : (finalOnlyFeats g fid mn mx).length = none := rfl
    have hwl : dictLookup (finalOnlyFeats g fid mn mx).wordMap w = none := rfl
    simp only [get_feature_list, if_neg hidx, hc, hsp, hu, hl, hwl]
    rw [getFeat_ngramScan]
    have hEq : (spanGrid w (orderList (finalOnlyFeats g fid mn mx))).countP
        (fun pq => decide (spanHit (finalOnlyFeats g fid mn mx) w pq.1 pq.2 = some fid)) =
        (spanGrid w (pythonRange mn (mx + 1))).countP
          (fun pq => decide (spanClass w pq.1 pq.2 = some (.finalK, g))) := by
      apply List.countP_congr
      intro pq _
      rw [spanHit_finalOnly g fid mn mx w pq.1 pq.2]
    rw [hEq]
    simp only [getFeat]
    rw [zero_add]
    exact_mod_cast hcnt2

/-- C10 witness: the initial n-gram "c" (order 2, feature id 7) fires at
most once on "cat". -/
theorem c10_initial_final_at_most_once_witness :
    getFeat (get_feature_list (fun q => q) (initialOnlyFeats ("c".toList) 7 2 2) []
      ("cat".toList) 1) 7 ≤ 1 :=
  (c10_initial_final_at_most_once ("cat".toList) ("c".toList) 2 2).2.2.2.2.1
    (fun q => q) [] 1 7 (by decide)

theorem read_features_go_parse (lines : List (List Word)) :
    ∀ (records : List FeatRecord) (f0 : Feats),
      parseLines parseFeatLine lines = .ok records →
      read_features_go f0 lines = .ok (records.foldl applyFeatRecord f0) := by
  induction lines with
  | nil =>
    intro records f0 h
    simp only [parseLines, Except.ok.injEq] at h
    subst h
    rfl
  | cons l ls ih =>
    intro records f0 h
    simp only [parseLines] at h
    cases hp : parseFeatLine l with
    | error e =>
      rw [hp] at h
      exact absurd h (by simp)
    | ok r =>
      rw [hp] at h
      cases hps : parseLines parseFeatLine ls with
      | error e =>
        rw [hps] at h
        exact absurd h (by simp)
      | ok rs =>
        rw [hps] at h
        simp only [Except.ok.injEq] at h
        subst h
        simp only [read_features_go, hp, List.foldl_cons]
        exact ih rs (applyFeatRecord f0 r) hps

theorem applyFeatRecord_min (f : Feats) (r : FeatRecord) :
    (applyFeatRecord f r).min_ngram_order =
      (match recOrder? r with
        | some o => min f.min_ngram_order o
        | none => f.min_ngram_order) := by
  cases r with
  | constantR i v => rfl
  | specialR i w => rfl
  | unigramR i e s => rfl
  | lengthR i => rfl
  | ngramR k i g =>
    cases k with
    | wordT => rfl
    | matchT =>
      simp only [applyFeatRecord, updOrder, recOrder?, Int.min_def]
      split_ifs with h1 h2 h3 <;>
        first
          | rfl
          | exact absurd h2 (not_le.mpr h1)
          | exact absurd (not_lt.mp h1) h3
    | initialT =>
      simp only [applyFeatRecord, updOrder, recOrder?, Int.min_def]
      split_ifs with h1 h2 h3 <;>
        first
          | rfl
          | exact absurd h2 (not_le.mpr h1)
          | exact absurd (not_lt.mp h1) h3
    | finalT =>
      simp only [applyFeatRecord, updOrder, recOrder?, Int.min_def]
      split_ifs with h1 h2 h3 <;>
        first
          | rfl
          | exact absurd h2 (not_le.mpr h1)
          | exact absurd (not_lt.mp h1) h3

theorem applyFeatRecord_max (f : Feats) (r : FeatRecord) :
    (applyFeatRecord f r).max_ngram_order =
      (match recOrder? r with
        | some o => max f.max_ngram_order o
        | none => f.max_ngram_order) := by
  cases r with
  | constantR i v => rfl
  | specialR i w => rfl
  | unigramR i e s => rfl
  | lengthR i => rfl
  | ngramR k i g =>
    cases k with
    | wordT => rfl
    | matchT =>
      simp only [applyFeatRecord, updOrder, recOrder?, Int.max_def]
      split_ifs with h1 h2 h3 <;>
        first
          | rfl
          | exact absurd (le_of_lt h1) h2
          | exact le_antisymm h3 (not_lt.mp h1)
    | initialT =>
      simp only [applyFeatRecord, updOrder, recOrder?, Int.max_def]
      split_ifs with h1 h2 h3 <;>
        first
          | rfl
          | exact absurd (le_of_lt h1) h2
          | exact le_antisymm h3 (not_lt.mp h1)
    | finalT =>
      simp only [applyFeatRecord, updOrder, recOrder?, Int.max_def]
      split_ifs with h1 h2 h3 <;>
        first
          | rfl
          | exact absurd (le_of_lt h1) h2
          | exact le_antisymm h3 (not_lt.mp h1)

theorem foldl_apply_min (records : List FeatRecord) :
    ∀ f0 : Feats,
      (records.foldl applyFeatRecord f0).min_ngram_order =
        (records.filterMap recOrder?).foldl min f0.min_ngram_order := by
  induction records with
  | nil => intro f0; rfl
  | cons r rs ih =>
    intro f0
    rw [List.foldl_cons, ih]
    cases ho : recOrder? r with
    | none =>
      rw [List.filterMap_cons_none ho, applyFeatRecord_min, ho]
    | some o =>
      rw [List.filterMap_cons_some ho, List.foldl_cons, applyFeatRecord_min, ho]

theorem foldl_apply_max (records : List FeatRecord) :
    ∀ f0 : Feats,
      (records.foldl applyFeatRecord f0).max_ngram_order =
        (records.filterMap recOrder?).foldl max f0.max_ngram_order := by
  induction records with
  | nil => intro f0; rfl
  | cons r rs ih =>
    intro f0
    rw [List.foldl_cons, ih]
    cases ho : recOrder? r with
    | none =>
      rw [List.filterMap_cons_none ho, applyFeatRecord_max, ho]
    | some o =>
      rw [List.filterMap_cons_some ho, List.foldl_cons, applyFeatRecord_max, ho]

/-- C7 (amended): after a successful load, `min_ngram_order` is the fold of
`min` starting at the 10000 sentinel over the orders of the
`match`/`initial`/`final` lines (character length for `match`, length + 1
for `initial`/`final`), and `max_ngram_order` the fold of `max` starting at
-1; `word` lines and all non-n-gram lines contribute nothing.  These folds
equal the true minimum/maximum over the entries whenever some entry has
order at most 10000 (resp. whenever any entry exists). -/
theorem c7_amended_order_range (lines : List (List Word)) (records : List FeatRecord)
    (feats : Feats)
    (hp : parseLines parseFeatLine lines = .ok records)
    (hr : read_features lines = .ok feats) :
    feats.min_ngram_order = (records.filterMap recOrder?).foldl min 10000 ∧
    feats.max_ngram_order = (records.filterMap recOrder?).foldl max (-1) := by
  have h2 := read_features_go_parse lines records featsInit hp
  rw [read_features] at hr
  rw [h2, Except.ok.injEq] at hr
  subst hr
  exact ⟨foldl_apply_min records featsInit, foldl_apply_max records featsInit⟩

/-- C7 witness: lines `2 match ab` and `3 initial c` (orders 2 and 2)
give min = max = 2. -/
theorem c7_amended_order_range_witness :
    ((⟨none, [], none, none, [], [("ab".toList, 2)], [("c".toList, 3)], [], 2, 2⟩ :
        Feats).min_ngram_order =
      ([FeatRecord.ngramR .matchT 2 ("ab".toList),
        FeatRecord.ngramR .initialT 3 ("c".toList)].filterMap recOrder?).foldl min 10000) ∧
    ((⟨none, [], none, none, [], [("ab".toList, 2)], [("c".toList, 3)], [], 2, 2⟩ :
        Feats).max_ngram_order =
      ([FeatRecord.ngramR .matchT 2 ("ab".toList),
        FeatRecord.ngramR .initialT 3 ("c".toList)].filterMap recOrder?).foldl max (-1)) :=
  c7_amended_order_range
    [["2".toList, "match".toList, "ab".toList], ["3".toList, "initial".toList, "c".toList]]
    [FeatRecord.ngramR .matchT 2 ("ab".toList), FeatRecord.ngramR .initialT 3 ("c".toList)]
    ⟨none, [], none, none, [], [("ab".toList, 2)], [("c".toList, 3)], [], 2, 2⟩
    (by decide) (by decide)

/-- C7 counterexample: a features file whose only line is a `match` entry
with a 10001-character n-gram (order 10001) loads with
`min_ngram_order = 10000` -- the sentinel survives because 10001 is not
below it -- while the minimum over the entries would be 10001. -/
theorem c7_counterexample :
    (read_features [["1".toList, "match".toList, List.replicate 10001 'a']]).map
        (fun f => f.min_ngram_order) = .ok 10000 ∧
      (List.replicate 10001 'a').length = 10001 := by
  constructor
  · have hParse : parseFeatLine ["1".toList, "match".toList, List.replicate 10001 'a'] =
        .ok (.ngramR .matchT 1 (List.replicate 10001 'a')) := rfl
    have h1 : read_features [["1".toList, "match".toList, List.replicate 10001 'a']] =
        .ok (applyFeatRecord featsInit (.ngramR .matchT 1 (List.replicate 10001 'a'))) := by
      rw [read_features]
      simp only [read_features_go, hParse]
    rw [h1]
    simp only [Except.map, applyFeatRecord, updOrder, List.length_replicate]
    norm_num [featsInit]
  · rw [List.length_replicate]

/-- C2 (amended): the probability loader's density check is internal to the
probability file: after the line loop builds the slot list (indexed 0 to
the maximum id seen in the file), the load fails with
`MissingProbabilityError` exactly when some slot is still absent.  The
vocabulary is never consulted, so a vocabulary id beyond every id in the
file is not detected at load time. -/
theorem c2_amended_internal_density (lines : List (List Word)) (probs : List (Option ℚ))
    (h : read_unigram_probs_go [] lines = .ok probs) :
    (none ∈ probs → read_unigram_probs lines = .error .MissingProbabilityError) ∧
    (none ∉ probs → read_unigram_probs lines = .ok (probs.map (fun p => p.getD 0))) := by
  constructor
  · intro hm
    have hall : ¬ (probs.all (fun p => p.isSome) = true) := by
      rw [List.all_eq_true]
      intro hall2
      have h2 := hall2 none hm
      simp at h2
    simp only [read_unigram_probs, h]
    rw [if_neg hall]
  · intro hm
    have hall : probs.all (fun p => p.isSome) = true := by
      rw [List.all_eq_true]
      intro p hp
      cases p with
      | none => exact absurd hp hm
      | some q => rfl
    simp only [read_unigram_probs, h]
    rw [if_pos hall]

/-- C2 witness: a probability file with ids 0 and 2 leaves slot 1 absent
and fails with MissingProbabilityError. -/
theorem c2_amended_internal_density_witness :
    read_unigram_probs [["0".toList, "1".toList], ["2".toList, "1".toList]] =
      .error .MissingProbabilityError :=
  (c2_amended_internal_density [["0".toList, "1".toList], ["2".toList, "1".toList]]
    [some 1, none, some 1] (by decide)).1 (by decide)

/-- C2 counterexample: the vocabulary {"a": 0, "b": 1, "c": 2} loads, the
probability file {0: 0.5, 1: 0.5} loads too, yet the vocabulary id 2 has
no entry in the loaded table (whose length is 2): the gap relative to the
vocabulary is not a load-time error. -/
theorem c2_counterexample :
    read_vocab [["a".toList, "0".toList], ["b".toList, "1".toList],
        ["c".toList, "2".toList]] =
        .ok [("a".toList, 0), ("b".toList, 1), ("c".toList, 2)] ∧
      read_unigram_probs [["0".toList, "1".toList], ["1".toList, "1".toList]] =
        .ok [1, 1] ∧
      (2 : Int) ∈ ([("a".toList, (0 : Int)), ("b".toList, 1), ("c".toList, 2)].map Prod.snd) ∧
      ¬ ((2 : Nat) < ([(1 : ℚ), 1] : List ℚ).length) := by
  refine ⟨by decide, by decide, by decide, by decide⟩

theorem parseVocabLine_ok (fields : List Word) (w : Word) (id : Int)
    (h : parseVocabLine fields = .ok (w, id)) :
    ¬ (fields.length ≠ 2) ∧ parseInt? (fields.getD 1 []) = some id ∧ w = fields.getD 0 [] := by
  unfold parseVocabLine at h
  by_cases h2 : fields.length ≠ 2
  · rw [if_pos h2] at h
    simp at h
  · rw [if_neg h2] at h
    cases hp : parseInt? (fields.getD 1 []) with
    | none =>
      rw [hp] at h
      simp at h
    | some k =>
      rw [hp] at h
      simp only [Except.ok.injEq, Prod.mk.injEq] at h
      obtain ⟨hw, hk⟩ := h
      refine ⟨h2, ?_, hw.symm⟩
      rw [← hk]

theorem read_vocab_go_spec :
    ∀ (lines : List (List Word)) (pairs acc : List (Word × Int)),
      parseLines parseVocabLine lines = .ok pairs →
      ((acc.map Prod.fst ++ pairs.map Prod.fst).Nodup →
        read_vocab_go acc lines = .ok (acc ++ pairs)) ∧
      ((acc.map Prod.fst).Nodup → ¬ (acc.map Prod.fst ++ pairs.map Prod.fst).Nodup →
        read_vocab_go acc lines = .error .DuplicateWordError) := by
  intro lines
  induction lines with
  | nil =>
    intro pairs acc h
    simp only [parseLines, Except.ok.injEq] at h
    subst h
    constructor
    · intro _
      simp [read_vocab_go]
    · intro hacc hnod
      simp only [List.map_nil, List.append_nil] at hnod
      exact absurd hacc hnod
  | cons l ls ih =>
    intro pairs acc h
    simp only [parseLines] at h
    cases hp : parseVocabLine l with
    | error e =>
      rw [hp] at h
      exact absurd h (by simp)
    | ok p =>
      rw [hp] at h
      cases hps : parseLines parseVocabLine ls with
      | error e =>
        rw [hps] at h
        exact absurd h (by simp)
      | ok ps =>
        rw [hps] at h
        simp only [Except.ok.injEq] at h
        subst h
        obtain ⟨w, id⟩ := p
        obtain ⟨hlen, hpint, hw⟩ := parseVocabLine_ok l w id hp
        constructor
        · intro hnod
          have hwnotin : w ∉ acc.map Prod.fst := by
            rcases List.nodup_append.mp hnod with ⟨-, -, hdisj⟩
            intro hin
            exact hdisj hin (by simp)
          have hlk : ¬ ((dictLookup acc (l.getD 0 [])).isSome = true) := by
            rw [← hw, dictLookup_isSome]
            exact hwnotin
          have hnod2 : ((acc ++ [(w, id)]).map Prod.fst ++ ps.map Prod.fst).Nodup := by
            simpa [List.append_assoc] using hnod
          have hrec := (ih ps (acc ++ [(w, id)]) hps).1 hnod2
          simp only [read_vocab_go, if_neg hlen, if_neg hlk, hpint]
          rw [← hw, hrec]
          simp [List.append_assoc]
        · intro hacc hnod
          by_cases hin : w ∈ acc.map Prod.fst
          · have hlk : (dictLookup acc (l.getD 0 [])).isSome = true := by
              rw [← hw, dictLookup_isSome]
              exact hin
            simp only [read_vocab_go, if_neg hlen, if_pos hlk]
          · have hlk : ¬ ((dictLookup acc (l.getD 0 [])).isSome = true) := by
              rw [← hw, dictLookup_isSome]
              exact hin
            have hacc2 : ((acc ++ [(w, id)]).map Prod.fst).Nodup := by
              rw [List.map_append]
              refine List.nodup_append.mpr ⟨hacc, by simp, ?_⟩
              intro a ha hmem
              simp only [List.map_cons, List.map_nil, List.mem_cons,
                List.not_mem_nil, or_false] at hmem
              subst hmem
              exact hin ha
            have hnod2 : ¬ ((acc ++ [(w, id)]).map Prod.fst ++ ps.map Prod.fst).Nodup := by
              intro hn
              exact hnod (by simpa [List.append_assoc] using hn)
            have hrec := (ih ps (acc ++ [(w, id)]) hps).2 hacc2 hnod2
            simp only [read_vocab_go, if_neg hlen, if_neg hlk, hpint]
            rw [← hw]
            exact hrec

/-- C8: over a vocabulary file whose lines parse as the word/id pairs
`pairs`, the loader fails with `DuplicateWordError` whenever a word string
repeats (this check fires first), fails with `NonContiguousIdError` when
the words are unique but the sorted ids differ from `0, 1, ..., N-1`, and
returns the pairs when both constraints hold. -/
theorem c8_vocab_loader (lines : List (List Word)) (pairs : List (Word × Int))
    (hp : parseLines parseVocabLine lines = .ok pairs) :
    (¬ (pairs.map Prod.fst).Nodup → read_vocab lines = .error .DuplicateWordError) ∧
    ((pairs.map Prod.fst).Nodup →
      sortIds (pairs.map Prod.snd) = idRange pairs.length →
      read_vocab lines = .ok pairs) ∧
    ((pairs.map Prod.fst).Nodup →
      sortIds (pairs.map Prod.snd) ≠ idRange pairs.length →
      read_vocab lines = .error .NonContiguousIdError) := by
  obtain ⟨hok, herr⟩ := read_vocab_go_spec lines pairs [] hp
  refine ⟨?_, ?_, ?_⟩
  · intro hnod
    have hgo := herr (by simp) (by simpa using hnod)
    simp only [read_vocab, hgo]
  · intro hnod hsort
    have hgo := hok (by simpa using hnod)
    rw [List.nil_append] at hgo
    simp only [read_vocab, hgo]
    rw [if_pos hsort]
  · intro hnod hsort
    have hgo := hok (by simpa using hnod)
    rw [List.nil_append] at hgo
    simp only [read_vocab, hgo]
    rw [if_neg hsort]

/-- C8 witness: {"a":0, "a":1} is rejected with DuplicateWordError,
{"a":0, "b":1} loads, {"a":0, "b":2} is rejected with
NonContiguousIdError. -/
theorem c8_vocab_loader_witness :
    read_vocab [["a".toList, "0".toList], ["a".toList, "1".toList]] =
        .error .DuplicateWordError ∧
      read_vocab [["a".toList, "0".toList], ["b".toList, "1".toList]] =
        .ok [("a".toList, 0), ("b".toList, 1)] ∧
      read_vocab [["a".toList, "0".toList], ["b".toList, "2".toList]] =
        .error .NonContiguousIdError :=
  ⟨(c8_vocab_loader [["a".toList, "0".toList], ["a".toList, "1".toList]]
      [("a".toList, 0), ("a".toList, 1)] (by decide)).1 (by decide),
   (c8_vocab_loader [["a".toList, "0".toList], ["b".toList, "1".toList]]
      [("a".toList, 0), ("b".toList, 1)] (by decide)).2.1 (by decide) (by decide),
   (c8_vocab_loader [["a".toList, "0".toList], ["b".toList, "2".toList]]
      [("a".toList, 0), ("b".toList, 2)] (by decide)).2.2 (by decide) (by decide)⟩

theorem read_features_cons_error (l : List Word) (rest : List (List Word)) (e : LoadError)
    (h : parseFeatLine l = .error e) : read_features (l :: rest) = .error e := by
  simp [read_features, read_features_go, h]

theorem parseFeatLine_missing_payload (n t : Word) (k : Int)
    (hn : parseInt? n = some k)
    (ht : t ∈ ["constant".toList, "special".toList, "unigram".toList, "word".toList,
      "match".toList, "initial".toList, "final".toList]) :
    parseFeatLine [n, t] = .error .IndexError := by
  fin_cases ht <;> simp [parseFeatLine, hn]

theorem parseFeatLine_unigram_three (n x : Word) (k : Int) (q : ℚ)
    (hn : parseInt? n = some k) (hx : parseFloat? x = some q) :
    parseFeatLine [n, "unigram".toList, x] = .error .IndexError := by
  simp [parseFeatLine, hn, hx]

/-- C4 (amended): vocabulary and probability lines fail the malformed-record
assert unless they have exactly 2 fields, and feature lines unless they
have 2 to 4 fields; within that window a feature line missing the payload
its type reads fails fatally with an IndexError instead, and extra payload
fields are silently ignored rather than fatal (a 3-field `length` line or a
4-field `constant` line loads successfully). -/
theorem c4_amended_arity :
    (∀ (fields : List Word) (rest : List (List Word)), fields.length ≠ 2 →
      read_vocab (fields :: rest) = .error .MalformedRecordError) ∧
    (∀ (fields : List Word) (rest : List (List Word)), fields.length ≠ 2 →
      read_unigram_probs (fields :: rest) = .error .MalformedRecordError) ∧
    (∀ (fields : List Word) (rest : List (List Word)),
      ¬ (fields.length = 2 ∨ fields.length = 3 ∨ fields.length = 4) →
      read_features (fields :: rest) = .error .MalformedRecordError) ∧
    (∀ (n t : Word) (k : Int) (rest : List (List Word)), parseInt? n = some k →
      t ∈ ["constant".toList, "special".toList, "unigram".toList, "word".toList,
        "match".toList, "initial".toList, "final".toList] →
      read_features ([n, t] :: rest) = .error .IndexError) ∧
    (∀ (n x : Word) (k : Int) (q : ℚ) (rest : List (List Word)),
      parseInt? n = some k → parseFloat? x = some q →
      read_features ([n, "unigram".toList, x] :: rest) = .error .IndexError) ∧
    (∀ (n x : Word) (k : Int), parseInt? n = some k →
      read_features [[n, "length".toList, x]] =
        .ok ⟨none, [], none, some k, [], [], [], [], 10000, -1⟩) ∧
    (∀ (n v x : Word) (k : Int) (q : ℚ), parseInt? n = some k → parseFloat? v = some q →
      read_features [[n, "constant".toList, v, x]] =
        .ok ⟨some (k, q), [], none, none, [], [], [], [], 10000, -1⟩) := by
  refine ⟨?_, ?_, ?_, ?_, ?_, ?_, ?_⟩
  · intro fields rest h
    simp [read_vocab, read_vocab_go, h]
  · intro fields rest h
    simp [read_unigram_probs, read_unigram_probs_go, h]
  · intro fields rest h
    exact read_features_cons_error _ _ _ (by simp [parseFeatLine, h])
  · intro n t k rest hn ht
    exact read_features_cons_error _ _ _ (parseFeatLine_missing_payload n t k hn ht)
  · intro n x k q rest hn hx
    exact read_features_cons_error _ _ _ (parseFeatLine_unigram_three n x k q hn hx)
  · intro n x k hn
    have hp : parseFeatLine [n, "length".toList, x] = .ok (.lengthR k) := by
      simp [parseFeatLine, hn]
    have hgo : read_features [[n, "length".toList, x]] =
        .ok (applyFeatRecord featsInit (.lengthR k)) := by
      rw [read_features]
      simp only [read_features_go, hp]
    rw [hgo]
    simp [applyFeatRecord, featsInit]
  · intro n v x k q hn hv
    have hp : parseFeatLine [n, "constant".toList, v, x] = .ok (.constantR k q) := by
      simp [parseFeatLine, hn, hv]
    have hgo : read_features [[n, "constant".toList, v, x]] =
        .ok (applyFeatRecord featsInit (.constantR k q)) := by
      rw [read_features]
      simp only [read_features_go, hp]
    rw [hgo]
    simp [applyFeatRecord, featsInit]

/-- C4 witness: one concrete line per case of the amended claim. -/
theorem c4_amended_arity_witness :
    read_vocab [["a".toList]] = .error .MalformedRecordError ∧
      read_unigram_probs [["0".toList, "1".toList, "2".toList]] =
        .error .MalformedRecordError ∧
      read_features [["1".toList, "x".toList, "y".toList, "z".toList, "w".toList]] =
        .error .MalformedRecordError ∧
      read_features [["3".toList, "special".toList]] = .error .IndexError ∧
      read_features [["4".toList, "unigram".toList, "2".toList]] = .error .IndexError ∧
      read_features [["7".toList, "length".toList, "junk".toList]] =
        .ok ⟨none, [], none, some 7, [], [], [], [], 10000, -1⟩ ∧
      read_features [["1".toList, "constant".toList, "2".toList, "junk".toList]] =
        .ok ⟨some (1, 2), [], none, none, [], [], [], [], 10000, -1⟩ :=
  ⟨c4_amended_arity.1 ["a".toList] [] (by decide),
   c4_amended_arity.2.1 ["0".toList, "1".toList, "2".toList] [] (by decide),
   c4_amended_arity.2.2.1 ["1".toList, "x".toList, "y".toList, "z".toList, "w".toList] []
     (by decide),
   c4_amended_arity.2.2.2.1 ("3".toList) ("special".toList) 3 [] (by decide) (by decide),
   c4_amended_arity.2.2.2.2.1 ("4".toList) ("2".toList) 4 2 [] (by decide) (by decide),
   c4_amended_arity.2.2.2.2.2.1 ("7".toList) ("junk".toList) 7 (by decide),
   c4_amended_arity.2.2.2.2.2.2 ("1".toList) ("2".toList) ("junk".toList) 1 2
     (by decide) (by decide)⟩

/-- C4 counterexample: a `length` line with an extra third field -- the
wrong field count for its type, which takes no payload -- loads
successfully instead of terminating fatally. -/
theorem c4_counterexample :
    read_features [["5".toList, "length".toList, "x".toList]] =
      .ok ⟨none, [], none, some 5, [], [], [], [], 10000, -1⟩ := by
  decide
